import Mathlib

/-!
Verification of the flacdat attribute-exchange and tag-synchronization engine.

The Rust program (src/main.rs) is shallowly embedded below: pure path-string
manipulation becomes functions on `List Char` / `String`, the Vorbis comment
block of a FLAC file becomes a finite map from comment keys to value lists,
the file system touched by the apply engine becomes an explicit map from path
strings to file records, and the fallible pipeline steps become `Except` /
sum-like result types with an explicit constructor for a Rust panic.
-/

namespace Flacdat

/-! ## Character-list utilities

`splitOnChar` mirrors Rust `str::split(char)` (splitting `""` yields `[""]`),
`joinWithChar` mirrors `[String]::join` with a one-character separator. -/

def splitOnChar (sep : Char) : List Char → List (List Char)
  | [] => [[]]
  | c :: rest =>
    let r := splitOnChar sep rest
    if c = sep then [] :: r
    else
      match r with
      | [] => [[c]]
      | h :: t => (c :: h) :: t

def joinWithChar (sep : Char) : List (List Char) → List Char
  | [] => []
  | [x] => x
  | x :: y :: t => x ++ sep :: joinWithChar sep (y :: t)

/-! ## Decimal digits

`natDigits` mirrors the decimal rendering used by Rust `u32::to_string` /
`Display for u32`; `parseDigitsAux`/`parseDigits` mirror the digit-consuming
core of Rust's integer `FromStr`. Fuel-based recursion keeps everything
kernel-reducible. -/

def digitChar (d : Nat) : Char := Char.ofNat (48 + d)

def natDigitsAux : Nat → Nat → List Char
  | 0, _ => []
  | fuel + 1, n =>
    if n < 10 then [digitChar n]
    else natDigitsAux fuel (n / 10) ++ [digitChar (n % 10)]

def natDigits (n : Nat) : List Char := natDigitsAux (n + 1) n

def parseDigitsAux : Nat → List Char → Option Nat
  | acc, [] => some acc
  | acc, c :: cs =>
    if c.isDigit then parseDigitsAux (acc * 10 + (c.toNat - 48)) cs else none

def parseDigits : List Char → Option Nat
  | [] => none
  | c :: cs => parseDigitsAux 0 (c :: cs)

/-! ## Rust integer parsing and rendering

`rustParseU32` mirrors `str::parse::<u32>()` (optional leading `+`, decimal
digits, range check), `rustParseI32` mirrors `str::parse::<i32>()` (optional
leading `+`/`-`), and `intStr` mirrors `Display for i32`. -/

def rustParseNat : List Char → Option Nat
  | [] => none
  | c :: rest => if c = '+' then parseDigits rest else parseDigits (c :: rest)

def rustParseU32 (s : List Char) : Option Nat :=
  (rustParseNat s).bind fun n => if n < 2 ^ 32 then some n else none

def rustParseI32 : List Char → Option Int
  | [] => none
  | c :: rest =>
    if c = '-' then
      (parseDigits rest).bind fun n => if n ≤ 2 ^ 31 then some (-(n : Int)) else none
    else if c = '+' then
      (parseDigits rest).bind fun n => if n < 2 ^ 31 then some ((n : Int)) else none
    else
      (parseDigits (c :: rest)).bind fun n => if n < 2 ^ 31 then some ((n : Int)) else none

def intStr (y : Int) : List Char :=
  if y < 0 then '-' :: natDigits y.natAbs else natDigits y.natAbs

/-! ## Path-string manipulation

These functions embed the `std::path` operations used by the program, for
Unix-style path strings: `fileName` is `Path::file_name` (the final `Normal`
component; `None` for a root path or a path terminating in `..`), `joinPath`
is `PathBuf::push` of a bare file name, `extension` is `Path::extension`
(the part of the file name after the last `.`, none when there is no `.`
past position zero), and `withExtension` is `Path::with_extension`. -/

def fileName (p : String) : Option String :=
  let comps := (splitOnChar '/' p.data).filter fun c => !(c == [] || c == ['.'])
  match comps.getLast? with
  | none => none
  | some c => if c = ['.', '.'] then none else some (String.mk c)

def joinPath (dir name : String) : String :=
  if dir.data = [] then name
  else if dir.data.getLast? = some '/' then String.mk (dir.data ++ name.data)
  else String.mk (dir.data ++ '/' :: name.data)

/-- `PathGroup::flac_output`: join the output directory with the base path's
file name. The source unwraps `file_name()`; `none` here models that panic. -/
def flac_output (base outputDir : String) : Option String :=
  (fileName base).map fun name => joinPath outputDir name

def extensionOfName (name : List Char) : Option (List Char) :=
  let r := name.reverse
  if '.' ∈ r then
    let e := (r.takeWhile fun c => c ≠ '.').reverse
    if name.length = e.length + 1 then none else some e
  else none

def extension (p : String) : Option String :=
  (fileName p).bind fun n => (extensionOfName n.data).map String.mk

def withExtension (p : String) (e : String) : String :=
  match fileName p with
  | none => p
  | some name =>
    match extensionOfName name.data with
    | none => String.mk (p.data ++ '.' :: e.data)
    | some ext => String.mk (p.data.take (p.data.length - (ext.length + 1)) ++ '.' :: e.data)

/-- `PathGroup::mp3`: the sibling path with the extension replaced by `mp3`
(retained in the source purely as reference material). -/
def mp3_sibling (base : String) : String := withExtension base "mp3"

/-! ## The attribute model -/

structure Attributes where
  album : Option String
  artist : List String
  title : Option String
  track : Option Nat
  year : Option Int
deriving DecidableEq, Repr

structure FileAttributes where
  path : String
  album : Option String
  artist : List String
  title : Option String
  track : Option Nat
  year : Option Int
deriving DecidableEq, Repr

/-- `Attributes::with_path`. -/
def Attributes.with_path (a : Attributes) (path : String) : FileAttributes :=
  { path := path
    album := a.album
    artist := a.artist
    title := a.title
    track := a.track
    year := a.year }

def FileAttributes.toAttributes (fa : FileAttributes) : Attributes :=
  { album := fa.album
    artist := fa.artist
    title := fa.title
    track := fa.track
    year := fa.year }

/-- The program's `Error` enum (the source spells the unsupported-file-type
variant `UnsupportedFileTye`); `ioAlreadyExists` is the
`io::ErrorKind::AlreadyExists` error built by the no-overwrite guard. -/
inductive Error where
  | ioAlreadyExists
  | ioOther
  | id3
  | vorbis
  | ffmpegNotInstalled
  | unsupportedFileTye (path : String)
  | csv
deriving DecidableEq, Repr

/-! ## Vorbis comment containers (the metaflac capability)

A FLAC file's Vorbis comment block is a map from comment keys to lists of
values. `vcGet`/`vcSet` are `VorbisComment::get`/`set`; the named accessors
used by the program (`album`, `artist`, `title`, `track`, `set_album`, ...)
read and write the standard upper-case keys. -/

structure VorbisComments where
  comments : String → Option (List String)

def vcGet (c : VorbisComments) (key : String) : Option (List String) :=
  c.comments key

def vcSet (c : VorbisComments) (key : String) (values : List String) : VorbisComments :=
  ⟨fun k => if k = key then some values else c.comments k⟩

def emptyVC : VorbisComments := ⟨fun _ => none⟩

/-- The ID3v2 tag capability: the accessors of `id3::Tag` used by the
program. -/
structure Id3Tag where
  album : Option String
  artist : Option String
  title : Option String
  track : Option Nat
  year : Option Int

/-! ## Attribute extraction (`Attributes::from_path` and friends) -/

/-- The pure core of `Attributes::from_flac_path`: build `Attributes` from a
FLAC file's Vorbis comments. Album/title take the first value of their field,
artist takes the whole multi-valued field, track is the parsed first
`TRACKNUMBER` value, year is the parsed first value of the custom `YEAR`
key (absent on parse failure). -/
def fromFlacComments (c : VorbisComments) : Attributes :=
  { album := (vcGet c "ALBUM").bind List.head?
    artist := (vcGet c "ARTIST").getD []
    title := (vcGet c "TITLE").bind List.head?
    track := ((vcGet c "TRACKNUMBER").bind List.head?).bind fun s => rustParseU32 s.data
    year := ((vcGet c "YEAR").bind List.head?).bind fun s => rustParseI32 s.data }

/-- The pure core of `Attributes::from_mp3_path`: the single-valued ID3
artist becomes a one-element sequence (or empty if absent). -/
def fromId3 (t : Id3Tag) : Attributes :=
  { album := t.album
    artist := (t.artist.map fun s => [s]).getD []
    title := t.title
    track := t.track
    year := t.year }

/-- `Attributes::from_flac_path`, over an abstract FLAC-reading capability
(`none` = the metaflac read failed). -/
def from_flac_path (readFlac : String → Option VorbisComments) (path : String) :
    Except Error Attributes :=
  match readFlac path with
  | none => .error .vorbis
  | some c => .ok (fromFlacComments c)

/-- `Attributes::from_mp3_path`, over an abstract ID3-reading capability. -/
def from_mp3_path (readMp3 : String → Option Id3Tag) (path : String) :
    Except Error Attributes :=
  match readMp3 path with
  | none => .error .id3
  | some t => .ok (fromId3 t)

/-- `Attributes::from_path`: dispatch on the path's extension; an extension
that is neither `flac` nor `mp3` is an `UnsupportedFileTye` error. -/
def from_path (readFlac : String → Option VorbisComments)
    (readMp3 : String → Option Id3Tag) (path : String) : Except Error Attributes :=
  if extension path = some "flac" then from_flac_path readFlac path
  else if extension path = some "mp3" then from_mp3_path readMp3 path
  else .error (.unsupportedFileTye path)

/-! ## The tabular exchange codec

A row is a list of six fields `[path, album, artist, title, track, year]`
(the tab-delimiting and quoting of the concrete text is the csv layer and is
not modelled; a row is taken at the field level). -/

def joinComma (l : List String) : String :=
  String.mk (joinWithChar ',' (l.map String.data))

def splitComma (s : String) : List String :=
  (splitOnChar ',' s.data).map String.mk

/-- The row written for one item by `list_attributes`: the path, then each
optional field rendered as its value or the empty string, with the artist
sequence joined by commas. -/
def list_attributes_row (item : FileAttributes) : List String :=
  [ item.path,
    item.album.getD "",
    joinComma item.artist,
    item.title.getD "",
    (item.track.map fun t => String.mk (natDigits t)).getD "",
    (item.year.map fun y => String.mk (intStr y)).getD "" ]

/-- Modelled from the spec: the parsing of one tabular row during import.
In the source, `read_attributes` delegates row parsing to the external
csv/serde deserializer for `FileAttributes`, whose code is not part of this
repository; per the spec, an empty optional field parses as absent, track and
year parse as integers (a malformed value is a parse error, `none` here), and
the artist field is split on commas (an empty artist field is the empty
sequence). -/
def read_attributes_row (row : List String) : Option FileAttributes :=
  match row with
  | [p, al, ar, ti, tr, yr] =>
    match (if tr = "" then some none else (rustParseU32 tr.data).map some : Option (Option Nat)),
        (if yr = "" then some none else (rustParseI32 yr.data).map some : Option (Option Int)) with
    | some t, some y =>
      some { path := p
             album := if al = "" then none else some al
             artist := if ar = "" then [] else splitComma ar
             title := if ti = "" then none else some ti
             track := t
             year := y }
    | _, _ => none
  | _ => none

/-- Modelled from the spec: the import indexes rows by path, later rows
overwriting earlier ones with the same path (last occurrence wins). Any
malformed row aborts the whole import. -/
def read_attributes_table (rows : List (List String)) :
    Option (String → Option FileAttributes) :=
  match rows with
  | [] => some fun _ => none
  | row :: rest =>
    (read_attributes_row row).bind fun fa =>
      (read_attributes_table rest).map fun m =>
        fun p => match m p with
          | some fa' => some fa'
          | none => if p = fa.path then some fa else none

/-! ## The apply engine

The file system is a map from path strings to FLAC files (abstract byte
content plus a Vorbis comment block). One entry of the `apply_attributes`
loop reads the tag from the source path, mutates it, derives the output
path (panicking if the base path has no file name), refuses to touch an
existing output path, and otherwise copies the source file and writes the
mutated tag over the copy. -/

/-- The mutation step of `apply_attributes` (§4.3): album/title/track are
written as single-element values only when present; the artist field is
always overwritten with the given sequence; nothing else — in particular not
the `YEAR` key — is touched. -/
def applyToComments (attr : Attributes) (c : VorbisComments) : VorbisComments :=
  let c₁ := match attr.album with
    | some album => vcSet c "ALBUM" [album]
    | none => c
  let c₂ := match attr.title with
    | some title => vcSet c₁ "TITLE" [title]
    | none => c₁
  let c₃ := match attr.track with
    | some track => vcSet c₂ "TRACKNUMBER" [String.mk (natDigits track)]
    | none => c₂
  vcSet c₃ "ARTIST" attr.artist

structure FlacFile where
  bytes : Nat
  tag : VorbisComments

def FS : Type := String → Option FlacFile

inductive StepResult where
  | ok (fs : FS)
  | err (e : Error)
  | panicked

inductive RunResult where
  | ok (fs : FS)
  | err (fs : FS) (e : Error)
  | panicked (fs : FS)

def RunResult.fs : RunResult → FS
  | .ok fs => fs
  | .err fs _ => fs
  | .panicked fs => fs

/-- One iteration of the `apply_attributes` loop for the entry
`(path, attr)`: read the tag (a missing file is a metaflac read error),
mutate it, derive the output path (`.unwrap()` panic when the path has no
file name), fail with `AlreadyExists` when the output path is occupied, else
copy the file and write the mutated tag into the copy. -/
def apply_attributes_step (outputDir : String) (fs : FS) (path : String)
    (attr : FileAttributes) : StepResult :=
  match fs path with
  | none => .err .vorbis
  | some f =>
    let mutated := applyToComments attr.toAttributes f.tag
    match flac_output path outputDir with
    | none => .panicked
    | some outName =>
      if (fs outName).isSome then .err .ioAlreadyExists
      else .ok fun q => if q = outName then some ⟨f.bytes, mutated⟩ else fs q

/-- The `apply_attributes` loop over the imported entries, terminal on the
first failure; the result carries the file system as mutated so far. -/
def apply_attributes_run (outputDir : String) (fs : FS) :
    List (String × FileAttributes) → RunResult
  | [] => .ok fs
  | (path, attr) :: rest =>
    match apply_attributes_step outputDir fs path attr with
    | .ok fs' => apply_attributes_run outputDir fs' rest
    | .err e => .err fs e
    | .panicked => .panicked fs

/-! ## The batch encode driver (`convert_wav_to_flac`) -/

/-- `ConvertToFlac::wav_paths`: keep the inputs whose name ends in the
literal string `.wav`. -/
def wav_paths (files : List String) : List String :=
  files.filter fun f => List.isSuffixOf ".wav".data f.data

/-- The encoder invocations the driver performs: one per matching input,
with the output path derived by replacing the extension with `flac`. -/
def convertInvocations (files : List String) : List (String × String) :=
  (wav_paths files).map fun p => (p, withExtension p "flac")

inductive ConvertResult where
  | notInstalled
  | assertFailed
  | ran (invocations : List (String × String))

/-- `convert_wav_to_flac`: probe ffmpeg (a failed probe is the
`FfmpegNotInstalled` error), then `assert!` that at least one input matched
(`assertFailed` models that panic), then invoke the encoder once per
matching input. -/
def convert_wav_to_flac (ffmpegOk : Bool) (files : List String) : ConvertResult :=
  if ffmpegOk = false then .notInstalled
  else if wav_paths files = [] then .assertFailed
  else .ran (convertInvocations files)

/-- Modelled from the spec: the optional track number a `PathGroup` parses
from the base file's name — the substring before the first space character,
parsed as an unsigned integer; absent when there is no space or the prefix
is not a valid integer. No function of `src/main.rs` implements this; it is
described in §4.1 of the spec (a variant from the tool's revision history). -/
def parseTrackNumber (name : String) : Option Nat :=
  if ' ' ∈ name.data then rustParseU32 (name.data.takeWhile fun c => c ≠ ' ')
  else none

/-! ## Concrete values used by the witnesses -/

def wFlacFile : FlacFile := ⟨0, emptyVC⟩

def wGuardFS : FS := fun q =>
  if q = "a.flac" then some wFlacFile
  else if q = "out/a.flac" then some wFlacFile
  else none

def wRootFS : FS := fun q => if q = "/" then some wFlacFile else none

def wFileAttrs : FileAttributes :=
  { path := "a.flac", album := none, artist := [], title := none, track := none, year := none }

/-! ## Helper lemmas -/

theorem splitOnChar_ne_nil (sep : Char) (l : List Char) : splitOnChar sep l ≠ [] := by
  induction l with
  | nil => simp [splitOnChar]
  | cons c rest ih =>
    simp only [splitOnChar]
    by_cases h : c = sep
    · simp [h]
    · simp only [h, if_false]
      cases hr : splitOnChar sep rest with
      | nil => exact absurd hr ih
      | cons a as => simp

theorem splitOnChar_no_sep (sep : Char) (x : List Char) (h : sep ∉ x) :
    splitOnChar sep x = [x] := by
  induction x with
  | nil => rfl
  | cons c cs ih =>
    have hc : c ≠ sep := by
      intro hc; exact h (hc ▸ List.mem_cons_self c cs)
    have hcs : sep ∉ cs := fun hm => h (List.mem_cons_of_mem c hm)
    simp only [splitOnChar, hc, if_false, ih hcs]

theorem splitOnChar_append_sep (sep : Char) (x rest : List Char) (h : sep ∉ x) :
    splitOnChar sep (x ++ sep :: rest) = x :: splitOnChar sep rest := by
  induction x with
  | nil => simp [splitOnChar]
  | cons c cs ih =>
    have hc : c ≠ sep := by
      intro hc; exact h (hc ▸ List.mem_cons_self c cs)
    have hcs : sep ∉ cs := fun hm => h (List.mem_cons_of_mem c hm)
    show splitOnChar sep (c :: (cs ++ sep :: rest)) = (c :: cs) :: splitOnChar sep rest
    simp only [splitOnChar, hc, if_false]
    rw [ih hcs]

theorem splitOnChar_joinWithChar (sep : Char) (l : List (List Char)) (hne : l ≠ [])
    (h : ∀ x ∈ l, sep ∉ x) : splitOnChar sep (joinWithChar sep l) = l := by
  induction l with
  | nil => exact absurd rfl hne
  | cons x t ih =>
    cases t with
    | nil =>
      simpa [joinWithChar] using
        splitOnChar_no_sep sep x (h x (List.mem_cons_self x []))
    | cons y t' =>
      have hx : sep ∉ x := h x (List.mem_cons_self x _)
      have hrest : ∀ z ∈ y :: t', sep ∉ z := fun z hz =>
        h z (List.mem_cons_of_mem x hz)
      simp only [joinWithChar, splitOnChar_append_sep sep x _ hx]
      rw [ih (by simp) hrest]

theorem digitChar_isDigit (d : Nat) (h : d < 10) : (digitChar d).isDigit = true := by
  interval_cases d <;> decide

theorem digitChar_toNat (d : Nat) (h : d < 10) : (digitChar d).toNat - 48 = d := by
  interval_cases d <;> decide

theorem parseDigitsAux_append (l₁ l₂ : List Char) (acc : Nat) :
    parseDigitsAux acc (l₁ ++ l₂) =
      (parseDigitsAux acc l₁).bind (fun m => parseDigitsAux m l₂) := by
  induction l₁ generalizing acc with
  | nil => simp [parseDigitsAux]
  | cons c cs ih =>
    simp only [List.cons_append, parseDigitsAux]
    by_cases h : c.isDigit
    · simp [h, ih]
    · simp [h]

theorem natDigitsAux_ne_nil (fuel n : Nat) (h : n < fuel) : natDigitsAux fuel n ≠ [] := by
  cases fuel with
  | zero => omega
  | succ f =>
    simp only [natDigitsAux]
    by_cases h10 : n < 10
    · simp [h10]
    · simp [h10]

theorem natDigits_ne_nil (n : Nat) : natDigits n ≠ [] :=
  natDigitsAux_ne_nil (n + 1) n (Nat.lt_succ_self n)

theorem parseDigitsAux_natDigitsAux (fuel : Nat) : ∀ n acc, n < fuel →
    parseDigitsAux acc (natDigitsAux fuel n) =
      some (acc * 10 ^ (natDigitsAux fuel n).length + n) := by
  induction fuel with
  | zero => intro n acc h; omega
  | succ f ih =>
    intro n acc _
    by_cases h10 : n < 10
    · simp [natDigitsAux, h10, parseDigitsAux, digitChar_isDigit n h10,
        digitChar_toNat n h10]
    · have hdiv : n / 10 < f := by omega
      have hmod : n % 10 < 10 := Nat.mod_lt _ (by omega)
      have hrec := ih (n / 10) acc hdiv
      simp only [natDigitsAux, h10, if_false]
      rw [parseDigitsAux_append, hrec]
      simp only [Option.some_bind, parseDigitsAux, digitChar_isDigit _ hmod,
        if_true, digitChar_toNat _ hmod, List.length_append, List.length_cons,
        List.length_nil, Nat.zero_add]
      congr 1
      generalize (natDigitsAux f (n / 10)).length = L
      rw [pow_succ, ← mul_assoc]
      generalize acc * 10 ^ L = A
      omega

theorem parseDigits_natDigits (n : Nat) : parseDigits (natDigits n) = some n := by
  have h : parseDigitsAux 0 (natDigits n) = some (0 * 10 ^ (natDigits n).length + n) :=
    parseDigitsAux_natDigitsAux (n + 1) n 0 (Nat.lt_succ_self n)
  cases hd : natDigits n with
  | nil => exact absurd hd (natDigits_ne_nil n)
  | cons c cs =>
    rw [hd] at h
    simp only [parseDigits, h, Nat.zero_mul, Nat.zero_add]

theorem natDigits_head_isDigit (n : Nat) :
    ∃ c cs, natDigits n = c :: cs ∧ c.isDigit = true := by
  cases hd : natDigits n with
  | nil => exact absurd hd (natDigits_ne_nil n)
  | cons c cs =>
    refine ⟨c, cs, rfl, ?_⟩
    by_contra hdig
    have h := parseDigits_natDigits n
    rw [hd] at h
    simp only [parseDigits, parseDigitsAux] at h
    simp only [Bool.not_eq_true] at hdig
    simp [hdig] at h

theorem natDigits_head_ne (n : Nat) (c : Char) (hc : c.isDigit = false) :
    ∀ cs, natDigits n ≠ c :: cs := by
  intro cs hd
  obtain ⟨c', cs', hd', hdig⟩ := natDigits_head_isDigit n
  rw [hd] at hd'
  cases hd'
  rw [hdig] at hc
  exact Bool.noConfusion hc

theorem rustParseNat_natDigits (n : Nat) : rustParseNat (natDigits n) = some n := by
  cases hd : natDigits n with
  | nil => exact absurd hd (natDigits_ne_nil n)
  | cons c cs =>
    have hplus : c ≠ '+' := by
      intro h
      exact natDigits_head_ne n c (by rw [h]; decide) cs (h ▸ hd)
    rw [rustParseNat, if_neg hplus, ← hd, parseDigits_natDigits]

theorem rustParseU32_natDigits (n : Nat) (h : n < 2 ^ 32) :
    rustParseU32 (natDigits n) = some n := by
  rw [rustParseU32, rustParseNat_natDigits, Option.some_bind, if_pos h]

theorem rustParseI32_intStr (y : Int) (hlo : -(2 ^ 31) ≤ y) (hhi : y < 2 ^ 31) :
    rustParseI32 (intStr y) = some y := by
  by_cases hneg : y < 0
  · have hbound : y.natAbs ≤ 2 ^ 31 := by omega
    rw [intStr, if_pos hneg, rustParseI32, if_pos rfl, parseDigits_natDigits,
      Option.some_bind, if_pos hbound]
    congr 1
    omega
  · push_neg at hneg
    have habs : (y.natAbs : Int) = y := Int.natAbs_of_nonneg hneg
    have hbound : y.natAbs < 2 ^ 31 := by omega
    rw [intStr, if_neg (not_lt.mpr hneg)]
    cases hd : natDigits y.natAbs with
    | nil => exact absurd hd (natDigits_ne_nil _)
    | cons c cs =>
      have hminus : c ≠ '-' := by
        intro h
        exact natDigits_head_ne y.natAbs c (by rw [h]; decide) cs (h ▸ hd)
      have hplus : c ≠ '+' := by
        intro h
        exact natDigits_head_ne y.natAbs c (by rw [h]; decide) cs (h ▸ hd)
      rw [rustParseI32, if_neg hminus, if_neg hplus, ← hd, parseDigits_natDigits,
        Option.some_bind, if_pos hbound, habs]

theorem vcGet_vcSet_self (c : VorbisComments) (k : String) (v : List String) :
    vcGet (vcSet c k v) k = some v := by
  simp [vcGet, vcSet]

theorem vcGet_vcSet_ne (c : VorbisComments) (k k' : String) (v : List String)
    (h : k' ≠ k) : vcGet (vcSet c k v) k' = vcGet c k' := by
  simp [vcGet, vcSet, h]

theorem stringData_mk (l : List Char) : (String.mk l).data = l := rfl

theorem stringMk_eq_empty_iff (l : List Char) : String.mk l = "" ↔ l = [] := by
  constructor
  · intro h
    simpa using congrArg String.data h
  · intro h
    rw [h]

theorem intStr_ne_nil (y : Int) : intStr y ≠ [] := by
  rw [intStr]
  split
  · exact List.cons_ne_nil _ _
  · exact natDigits_ne_nil _

theorem joinComma_ne_empty (l : List String) (hne : l ≠ []) (h : ∀ x ∈ l, x ≠ "") :
    joinComma l ≠ "" := by
  cases l with
  | nil => exact absurd rfl hne
  | cons x xs =>
    rw [joinComma, Ne, stringMk_eq_empty_iff]
    cases xs with
    | nil =>
      simp only [List.map, joinWithChar]
      intro hx
      have hxe : x = "" := by
        have hx' : x = String.mk x.data := rfl
        rw [hx', hx]
      exact (h x (List.mem_cons_self x [])) hxe
    | cons y ys =>
      simp only [List.map, joinWithChar]
      intro hx
      rw [List.append_eq_nil] at hx
      exact List.cons_ne_nil _ _ hx.2

theorem splitComma_joinComma (l : List String) (hne : l ≠ [])
    (h : ∀ x ∈ l, ',' ∉ x.data) : splitComma (joinComma l) = l := by
  rw [splitComma, joinComma, stringData_mk,
    splitOnChar_joinWithChar ',' (l.map String.data) (by simpa using hne)
      (by
        intro x hx
        obtain ⟨a, ha, rfl⟩ := List.mem_map.mp hx
        exact h a ha)]
  rw [List.map_map]
  have hid : (String.mk ∘ String.data) = id := funext fun s => rfl
  rw [hid, List.map_id]

theorem apply_attributes_step_preserves (outputDir : String) (fs : FS) (path : String)
    (attr : FileAttributes) (fs' : FS)
    (h : apply_attributes_step outputDir fs path attr = .ok fs') :
    ∀ p f, fs p = some f → fs' p = some f := by
  intro p f hpf
  rw [apply_attributes_step] at h
  split at h
  · exact StepResult.noConfusion h
  · split at h
    · exact StepResult.noConfusion h
    · split at h
      · exact StepResult.noConfusion h
      · rename_i g _ out hout hex
        injection h with h'
        have hne : p ≠ out := by
          intro he
          apply hex
          rw [← he, hpf]
          rfl
        rw [← h']
        simp [hpf, hne]

/-! ## The claims -/

/-- C2: the track number parsed from a base file's name is the substring
before the first space, parsed as an unsigned integer; it is absent when the
name contains no space, and for the documented examples
`"03 Song Title.flac"` yields 3 while `"Song Title.flac"` and
`"abc Song.flac"` yield absent. The function is total, so no error is ever
raised for a malformed name. -/
theorem track_number_parsing :
    (∀ name : String, ' ' ∉ name.data → parseTrackNumber name = none) ∧
    parseTrackNumber "03 Song Title.flac" = some 3 ∧
    parseTrackNumber "Song Title.flac" = none ∧
    parseTrackNumber "abc Song.flac" = none := by
  refine ⟨?_, by decide, by decide, by decide⟩
  intro name h
  rw [parseTrackNumber, if_neg h]

theorem track_number_parsing_witness : parseTrackNumber "SongTitle.flac" = none :=
  track_number_parsing.1 "SongTitle.flac" (by decide)

/-- C7: exporting an `Attributes` with every optional field absent yields a
row whose five non-path fields are all empty strings, and importing that row
yields every optional field absent again (`none` / the empty artist
sequence, not empty strings or zeros). -/
theorem absence_preservation :
    ∀ p : String,
      list_attributes_row
          { path := p, album := none, artist := [], title := none,
            track := none, year := none } = [p, "", "", "", "", ""] ∧
      read_attributes_row [p, "", "", "", "", ""] =
        some { path := p, album := none, artist := [], title := none,
               track := none, year := none } := by
  intro p
  exact ⟨rfl, rfl⟩

/-- C4: the mutation step of apply writes album/title/track as
single-element values only when the corresponding field is present, leaving
the container's value untouched when absent, and always overwrites the
artist field with the given sequence, even when that sequence is empty. -/
theorem partial_update_semantics :
    ∀ (a : Attributes) (c : VorbisComments),
      ((a.album = none → vcGet (applyToComments a c) "ALBUM" = vcGet c "ALBUM") ∧
        (∀ x, a.album = some x → vcGet (applyToComments a c) "ALBUM" = some [x])) ∧
      ((a.title = none → vcGet (applyToComments a c) "TITLE" = vcGet c "TITLE") ∧
        (∀ x, a.title = some x → vcGet (applyToComments a c) "TITLE" = some [x])) ∧
      ((a.track = none → vcGet (applyToComments a c) "TRACKNUMBER" = vcGet c "TRACKNUMBER") ∧
        (∀ n, a.track = some n →
          vcGet (applyToComments a c) "TRACKNUMBER" = some [String.mk (natDigits n)])) ∧
      vcGet (applyToComments a c) "ARTIST" = some a.artist := by
  intro a c
  obtain ⟨al, ar, ti, tr, yr⟩ := a
  cases al <;> cases ti <;> cases tr <;>
    simp_all [applyToComments, vcGet, vcSet]

theorem partial_update_semantics_witness :
    vcGet (applyToComments ⟨none, [], some "T", none, none⟩ emptyVC) "ALBUM" =
        vcGet emptyVC "ALBUM" ∧
      vcGet (applyToComments ⟨none, [], some "T", none, none⟩ emptyVC) "TITLE" = some ["T"] ∧
      vcGet (applyToComments ⟨none, [], some "T", none, none⟩ emptyVC) "ARTIST" = some [] :=
  ⟨(partial_update_semantics ⟨none, [], some "T", none, none⟩ emptyVC).1.1 rfl,
    (partial_update_semantics ⟨none, [], some "T", none, none⟩ emptyVC).2.1.2 "T" rfl,
    (partial_update_semantics ⟨none, [], some "T", none, none⟩ emptyVC).2.2.2⟩

/-- C3 counterexample: applying an `Attributes` whose year is present does
NOT write the year into the container's `YEAR` comment — after applying a
value with year 1999 to an empty container, the `YEAR` key is still absent. -/
theorem year_not_written_counterexample :
    (⟨none, [], none, none, some 1999⟩ : Attributes).year = some 1999 ∧
      vcGet (applyToComments ⟨none, [], none, none, some 1999⟩ emptyVC) "YEAR" = none := by
  decide

/-- C3 amended: extraction reads the year from the first value of the custom
`YEAR` comment key, absent on parse failure; the apply mutation step does
not write the year — it leaves the container's `YEAR` comment unchanged for
every `Attributes` value, even one whose year is present. -/
theorem year_field_handling :
    (∀ (c : VorbisComments) (s : String) (rest : List String),
      vcGet c "YEAR" = some (s :: rest) →
        (fromFlacComments c).year = rustParseI32 s.data) ∧
    (∀ c : VorbisComments, vcGet c "YEAR" = none → (fromFlacComments c).year = none) ∧
    (∀ (a : Attributes) (c : VorbisComments),
      vcGet (applyToComments a c) "YEAR" = vcGet c "YEAR") := by
  refine ⟨?_, ?_, ?_⟩
  · intro c s rest h
    simp [fromFlacComments, h]
  · intro c h
    simp [fromFlacComments, h]
  · intro a c
    obtain ⟨al, ar, ti, tr, yr⟩ := a
    cases al <;> cases ti <;> cases tr <;> simp [applyToComments, vcGet, vcSet]

theorem year_field_handling_witness :
    (fromFlacComments (vcSet emptyVC "YEAR" ["1999"])).year = rustParseI32 "1999".data :=
  year_field_handling.1 (vcSet emptyVC "YEAR" ["1999"]) "1999" [] (by decide)

/-- C6: a path whose extension is neither `flac` nor `mp3` makes
`Attributes::from_path` fail with the `UnsupportedFileTye` error, with a
result independent of the reading capabilities (no I/O beyond the extension
check); a path with extension `flac` (resp. `mp3`) is read through the
corresponding container capability and yields its `Attributes`. -/
theorem unsupported_format_rejection :
    (∀ readFlac readMp3 readFlac' readMp3' (path : String),
      extension path ≠ some "flac" → extension path ≠ some "mp3" →
      from_path readFlac readMp3 path = .error (.unsupportedFileTye path) ∧
        from_path readFlac readMp3 path = from_path readFlac' readMp3' path) ∧
    (∀ readFlac readMp3 (path : String) c, extension path = some "flac" →
      readFlac path = some c → from_path readFlac readMp3 path = .ok (fromFlacComments c)) ∧
    (∀ readFlac readMp3 (path : String) t, extension path = some "mp3" →
      readMp3 path = some t → from_path readFlac readMp3 path = .ok (fromId3 t)) := by
  refine ⟨?_, ?_, ?_⟩
  · intro rf rm rf' rm' path h1 h2
    constructor
    · rw [from_path, if_neg h1, if_neg h2]
    · rw [from_path, if_neg h1, if_neg h2, from_path, if_neg h1, if_neg h2]
  · intro rf rm path c h hr
    rw [from_path, if_pos h, from_flac_path, hr]
  · intro rf rm path t h hr
    have h1 : extension path ≠ some "flac" := by
      rw [h]
      decide
    rw [from_path, if_neg h1, if_pos h, from_mp3_path, hr]

theorem unsupported_format_rejection_witness :
    from_path (fun _ => none) (fun _ => none) "song.txt" =
      .error (.unsupportedFileTye "song.txt") :=
  (unsupported_format_rejection.1 (fun _ => none) (fun _ => none)
    (fun _ => none) (fun _ => none) "song.txt" (by decide) (by decide)).1

/-- C8: when no input path ends in `.wav`, the encode driver — after a
successful encoder probe — fails the unconditional `assert!` (a panic)
rather than returning a recoverable error. -/
theorem convert_empty_input_asserts :
    ∀ files : List String, (∀ f ∈ files, ¬ List.isSuffixOf ".wav".data f.data) →
      convert_wav_to_flac true files = .assertFailed := by
  intro files h
  have hw : wav_paths files = [] := by
    rw [wav_paths, List.filter_eq_nil_iff]
    intro f hf
    simpa using h f hf
  rw [convert_wav_to_flac, if_neg (by decide), if_pos hw]

theorem convert_empty_input_asserts_witness :
    convert_wav_to_flac true ["track.mp3"] = .assertFailed :=
  convert_empty_input_asserts ["track.mp3"] (by decide)

/-- C9: every encoder invocation of the convert driver is for an input
ending in `.wav` taken from the input list, with the output path derived by
replacing the extension with `flac`; an input not ending in `.wav` is never
passed to the encoder; and the concrete input `track.wav` targets
`track.flac`. -/
theorem convert_path_derivation :
    (∀ (files : List String) (pr : String × String), pr ∈ convertInvocations files →
      List.isSuffixOf ".wav".data pr.1.data ∧ pr.1 ∈ files ∧
        pr.2 = withExtension pr.1 "flac") ∧
    (∀ (files : List String) (f : String), ¬ List.isSuffixOf ".wav".data f.data →
      ∀ o, (f, o) ∉ convertInvocations files) ∧
    (∀ files : List String, "track.wav" ∈ files →
      ("track.wav", "track.flac") ∈ convertInvocations files) := by
  refine ⟨?_, ?_, ?_⟩
  · intro files pr hpr
    obtain ⟨p, hp, rfl⟩ := List.mem_map.mp hpr
    rw [wav_paths, List.mem_filter] at hp
    exact ⟨hp.2, hp.1, rfl⟩
  · intro files f hf o hmem
    obtain ⟨p, hp, he⟩ := List.mem_map.mp hmem
    rw [wav_paths, List.mem_filter] at hp
    have : p = f := congrArg Prod.fst he
    rw [this] at hp
    exact hf hp.2
  · intro files hmem
    have hwav : "track.wav" ∈ wav_paths files := by
      rw [wav_paths, List.mem_filter]
      exact ⟨hmem, by decide⟩
    have := List.mem_map_of_mem (fun p => (p, withExtension p "flac")) hwav
    simpa [convertInvocations] using this

theorem convert_path_derivation_witness :
    ("track.wav", "track.flac") ∈ convertInvocations ["track.wav"] :=
  convert_path_derivation.2.2 ["track.wav"] (by decide)

/-- C10: `PathGroup::flac_output` unwraps the base path's file name, so it
panics (modelled as `none`) for a base path with no final file-name
component, such as the root path `"/"` or a path ending in `".."`; if the
imported mapping contains such a path (and its container read succeeds,
which precedes the unwrap), the apply run aborts by panic, not by a
reported error. -/
theorem flac_output_unwrap_panics :
    (fileName "/" = none ∧ fileName "music/.." = none ∧
      (∀ p : String, fileName p = none → ∀ dir : String, flac_output p dir = none)) ∧
    (∀ (dir p : String), fileName p = none →
      ∀ (fs : FS) (a : FileAttributes) (rest : List (String × FileAttributes)),
        (fs p).isSome →
        apply_attributes_run dir fs ((p, a) :: rest) = .panicked fs) := by
  constructor
  · refine ⟨by decide, by decide, ?_⟩
    intro p h dir
    rw [flac_output, h, Option.map_none']
  · intro dir p hfn fs a rest hread
    obtain ⟨f, hf⟩ := Option.isSome_iff_exists.mp hread
    have hstep : apply_attributes_step dir fs p a = .panicked := by
      rw [apply_attributes_step, hf, flac_output, hfn, Option.map_none']
    rw [apply_attributes_run, hstep]

theorem flac_output_unwrap_panics_witness :
    apply_attributes_run "out" wRootFS [("/", wFileAttrs)] = .panicked wRootFS :=
  flac_output_unwrap_panics.2 "out" "/" (by decide) wRootFS wFileAttrs [] (by decide)

/-- C5: when the computed output path of a target already exists in the file
system, the apply step fails with the `AlreadyExists` I/O error (provided
the source read itself succeeds, which happens first), an erring step aborts
the whole run with the file system as it stood, and no path that already
holds a file is ever modified by an apply run — in particular a pre-existing
output file survives a re-run untouched. -/
theorem no_overwrite_guard :
    (∀ (dir : String) (fs : FS) (path : String) (attr : FileAttributes) (out : String),
      (fs path).isSome → flac_output path dir = some out → (fs out).isSome →
      apply_attributes_step dir fs path attr = .err .ioAlreadyExists) ∧
    (∀ (dir : String) (fs : FS) (path : String) (attr : FileAttributes) (e : Error) rest,
      apply_attributes_step dir fs path attr = .err e →
      apply_attributes_run dir fs ((path, attr) :: rest) = .err fs e) ∧
    (∀ (dir : String) (fs : FS) (entries : List (String × FileAttributes))
        (p : String) (f : FlacFile),
      fs p = some f → (apply_attributes_run dir fs entries).fs p = some f) := by
  refine ⟨?_, ?_, ?_⟩
  · intro dir fs path attr out hread hout hex
    obtain ⟨f, hf⟩ := Option.isSome_iff_exists.mp hread
    simp only [apply_attributes_step, hf, hout]
    rw [if_pos hex]
  · intro dir fs path attr e rest hstep
    rw [apply_attributes_run, hstep]
  · intro dir fs entries
    induction entries generalizing fs with
    | nil =>
      intro p f h
      rw [apply_attributes_run, RunResult.fs]
      exact h
    | cons entry rest ih =>
      intro p f h
      obtain ⟨path, attr⟩ := entry
      cases hstep : apply_attributes_step dir fs path attr with
      | ok fs' =>
        rw [apply_attributes_run, hstep]
        exact ih fs' p f
          (apply_attributes_step_preserves dir fs path attr fs' hstep p f h)
      | err e =>
        rw [apply_attributes_run, hstep, RunResult.fs]
        exact h
      | panicked =>
        rw [apply_attributes_run, hstep, RunResult.fs]
        exact h

theorem no_overwrite_guard_witness :
    apply_attributes_step "out" wGuardFS "a.flac" wFileAttrs = .err .ioAlreadyExists :=
  no_overwrite_guard.1 "out" wGuardFS "a.flac" wFileAttrs "out/a.flac"
    (by decide) (by decide) (by decide)

/-- C1 counterexample: the comma-bearing artist is NOT the sole exception to
the round trip. A value with all five fields populated and no comma
anywhere, whose album is the (populated) empty string, exports the album as
an empty field and imports back with the album absent — the round trip
fails at it. -/
theorem tabular_round_trip_counterexample :
    read_attributes_row (list_attributes_row
        ⟨"p", some "", ["B"], some "T", some 3, some 1999⟩) =
      some ⟨"p", none, ["B"], some "T", some 3, some 1999⟩ ∧
      (⟨"p", none, ["B"], some "T", some 3, some 1999⟩ : FileAttributes) ≠
        ⟨"p", some "", ["B"], some "T", some 3, some 1999⟩ := by
  decide

/-- C1 amended: serializing an `Attributes` row with all five fields
populated via the list export and parsing it back via the apply import
yields an equal value, provided no artist element contains a comma, no
populated string field (album, title, or an artist element) is the empty
string, and track/year are in range for the `u32`/`i32` parses. Neither
exceptional kind of value is preserved: an artist element containing a
literal comma comes back split at the comma, and a populated empty-string
field exports as an empty field and comes back absent. -/
theorem tabular_round_trip :
    (∀ (fa : FileAttributes) (al ti : String) (t : Nat) (y : Int),
      fa.album = some al → al ≠ "" →
      fa.title = some ti → ti ≠ "" →
      fa.track = some t → t < 2 ^ 32 →
      fa.year = some y → -(2 ^ 31) ≤ y → y < 2 ^ 31 →
      fa.artist ≠ [] → (∀ a ∈ fa.artist, a ≠ "" ∧ ',' ∉ a.data) →
      read_attributes_row (list_attributes_row fa) = some fa) ∧
    (read_attributes_row (list_attributes_row
        ⟨"p", some "A", ["X,Y"], some "T", some 3, some 1999⟩) =
      some ⟨"p", some "A", ["X", "Y"], some "T", some 3, some 1999⟩ ∧
      (⟨"p", some "A", ["X", "Y"], some "T", some 3, some 1999⟩ : FileAttributes) ≠
        ⟨"p", some "A", ["X,Y"], some "T", some 3, some 1999⟩) ∧
    (read_attributes_row (list_attributes_row
        ⟨"p", some "T", [""], some "T", some 3, some 1999⟩) =
      some ⟨"p", some "T", [], some "T", some 3, some 1999⟩ ∧
      (⟨"p", some "T", [], some "T", some 3, some 1999⟩ : FileAttributes) ≠
        ⟨"p", some "T", [""], some "T", some 3, some 1999⟩) := by
  refine ⟨?_, ⟨by decide, by decide⟩, by decide, by decide⟩
  intro fa al ti t y hal hal0 hti hti0 htr ht32 hyr hylo hyhi har hars
  obtain ⟨p, album, artist, title, track, year⟩ := fa
  simp only at hal hti htr hyr har hars
  subst hal
  subst hti
  subst htr
  subst hyr
  have hrow : list_attributes_row ⟨p, some al, artist, some ti, some t, some y⟩ =
      [p, al, joinComma artist, ti, String.mk (natDigits t), String.mk (intStr y)] := rfl
  rw [hrow]
  have htr0 : String.mk (natDigits t) ≠ "" := by
    rw [Ne, stringMk_eq_empty_iff]
    exact natDigits_ne_nil t
  have hyr0 : String.mk (intStr y) ≠ "" := by
    rw [Ne, stringMk_eq_empty_iff]
    exact intStr_ne_nil y
  have harne : joinComma artist ≠ "" :=
    joinComma_ne_empty artist har fun x hx => (hars x hx).1
  simp only [read_attributes_row, if_neg htr0, if_neg hyr0, stringData_mk,
    rustParseU32_natDigits t ht32, rustParseI32_intStr y hylo hyhi,
    Option.map_some', if_neg hal0, if_neg hti0, if_neg harne,
    splitComma_joinComma artist har fun x hx => (hars x hx).2]

theorem tabular_round_trip_witness :
    read_attributes_row (list_attributes_row
        ⟨"p", some "A", ["B"], some "T", some 3, some 1999⟩) =
      some ⟨"p", some "A", ["B"], some "T", some 3, some 1999⟩ :=
  tabular_round_trip.1 ⟨"p", some "A", ["B"], some "T", some 3, some 1999⟩
    "A" "T" 3 1999 rfl (by decide) rfl (by decide) rfl (by decide) rfl
    (by decide) (by decide) (by decide) (by decide)

end Flacdat

